import Mathlib

/-!
Verification of the component-list and component-manifest parsing layer
(`glomo.py`) of the X-Plane `python-script-utils` repository.

The Python code is shallowly embedded: every definition below mirrors one
Python function or method.  Python strings are Lean `String`s manipulated as
`List Char`; Python's `None`-or-value results and raised exceptions are
modelled with `Option`/`Except`.  Regular-expression matches are embedded as
deterministic scanners: each regex used by the source is a sequence of
greedy tokens (literals, `\s+`, `\d+`, `\S+`, float, escaped-path runs)
whose feasible backtracking points coincide with the greedy choice, so a
deterministic scanner is an exact model (this is argued case by case in the
comments of the matchers).

Modelling abstractions (noted where used):
* Python `str.splitlines` splits on several Unicode line terminators; the
  embedding splits on `'\n'` only, which covers every input the manifests
  and component lists use.
* Python's `\s`, `str.strip` and `int()` accept some exotic Unicode
  whitespace and digit characters and (for `int`) underscore separators;
  the embedding uses the ASCII forms.
* `os.path.join` / `pathlib` joining is modelled for the POSIX two-argument
  forms used by the source, without `.`/`..`/double-slash normalization
  (no input in the source's format produces those).
-/

/-- Python whitespace test (`\s`, `str.strip`), ASCII subset. -/
def pyIsSpace (c : Char) : Bool :=
  c == ' ' || c == '\t' || c == '\n' || c == '\r' || c == '\x0b' || c == '\x0c'

/-- `str.strip()` on a character list. -/
def pyStripList (l : List Char) : List Char :=
  ((l.dropWhile pyIsSpace).reverse.dropWhile pyIsSpace).reverse

/-- `str.rstrip()` on a character list. -/
def pyRstripList (l : List Char) : List Char :=
  (l.reverse.dropWhile pyIsSpace).reverse

/-- `str.strip()`. -/
def pyStrip (s : String) : String := (pyStripList s.data).asString

/-- `str.rstrip()`. -/
def pyRstrip (s : String) : String := (pyRstripList s.data).asString

/-- Split a character list at every `'\n'`, keeping a (possibly empty)
trailing fragment. -/
def splitLinesList : List Char → List (List Char)
  | [] => [[]]
  | '\n' :: rest => [] :: splitLinesList rest
  | c :: rest =>
    match splitLinesList rest with
    | [] => [[c]]
    | f :: fs => (c :: f) :: fs

/-- `str.splitlines()`: like splitting on `'\n'` but with no empty final
fragment (`''.splitlines() = []`, `'a\n'.splitlines() = ['a']`). -/
def pySplitLines (s : String) : List String :=
  let fs := splitLinesList s.data
  (if fs.getLast? = some [] then fs.dropLast else fs).map List.asString

/-- Locate the first occurrence of `sep`: returns the text before it and the
text after it. -/
def findSplit (sep : List Char) : List Char → Option (List Char × List Char)
  | [] => none
  | c :: rest =>
    if sep.isPrefixOf (c :: rest) then some ([], (c :: rest).drop sep.length)
    else
      match findSplit sep rest with
      | some (before, after) => some (c :: before, after)
      | none => none

/-- Fuel-driven worker for the full split: each found occurrence of a
non-empty `sep` strictly shortens the remainder, so `l.length + 1` units of
fuel always reach the `findSplit = none` base case. -/
def splitAllFuel (sep : List Char) : Nat → List Char → List (List Char)
  | 0, l => [l]
  | fuel + 1, l =>
    match findSplit sep l with
    | none => [l]
    | some (before, after) => before :: splitAllFuel sep fuel after

/-- `str.split(sep)` (full split, `sep` a non-empty literal). -/
def splitAll (sep : List Char) (l : List Char) : List (List Char) :=
  splitAllFuel sep (l.length + 1) l

/-- `s.split(sep, maxsplit=1)[1]`: the text after the first occurrence of
`sep`, or `none` (Python `IndexError`) when `sep` does not occur. -/
def splitOnceAfter (sep l : List Char) : Option (List Char) :=
  (findSplit sep l).map (fun pr => pr.2)

/-- `s.split(sep)[0]`: the text before the first occurrence of `sep`
(the whole string when `sep` does not occur). -/
def splitBefore (sep l : List Char) : List Char :=
  match findSplit sep l with
  | some (before, _) => before
  | none => l

/-- String-level `s.split(sep, maxsplit=1)[1]`. -/
def pySplitOnce (s sep : String) : Option String :=
  (splitOnceAfter sep.data s.data).map List.asString

/-- String-level `s.split(sep)`. -/
def pySplit (s sep : String) : List String :=
  (splitAll sep.data s.data).map List.asString

/-- String-level `s.split(sep)[0]`. -/
def pySplitFirst (s sep : String) : String :=
  (splitBefore sep.data s.data).asString

/-- `str.split()` (no separator): whitespace runs as delimiters, no empty
fragments. -/
def splitWsAux : List Char → List Char → List (List Char)
  | acc, [] => if acc.isEmpty then [] else [acc.reverse]
  | acc, c :: rest =>
    if pyIsSpace c then
      if acc.isEmpty then splitWsAux [] rest
      else acc.reverse :: splitWsAux [] rest
    else splitWsAux (c :: acc) rest

/-- String-level `str.split()`. -/
def pySplitWs (s : String) : List String :=
  (splitWsAux [] s.data).map List.asString

/-- Numeric value of a digit run. -/
def digitsVal (l : List Char) : Nat :=
  l.foldl (fun n c => 10 * n + (c.toNat - '0'.toNat)) 0

/-- Python `int(s)`: optional surrounding whitespace, optional sign, one or
more ASCII digits; `none` models `ValueError`. -/
def pyIntList (l : List Char) : Option Int :=
  let t := pyStripList l
  match t with
  | '+' :: ds =>
    if ds ≠ [] ∧ ds.all Char.isDigit then some (Int.ofNat (digitsVal ds)) else none
  | '-' :: ds =>
    if ds ≠ [] ∧ ds.all Char.isDigit then some (-(Int.ofNat (digitsVal ds))) else none
  | ds =>
    if ds ≠ [] ∧ ds.all Char.isDigit then some (Int.ofNat (digitsVal ds)) else none

/-- `int(s)` on strings. -/
def pyInt (s : String) : Option Int := pyIntList s.data

/-- `CdnServer` from `highwinds_cdn.py` (only the parts `glomo.py` uses). -/
inductive CdnServer where
  | MobileSecure
  | MobileUnsecured
deriving DecidableEq

/-- `CdnServer.for_component_list`. -/
def CdnServer.for_component_list : CdnServer → String
  | .MobileSecure => "SERVER_SECURE"
  | .MobileUnsecured => "SERVER_UNSECURE"

/-- `CdnServer.from_component_list_id`: anything other than the exact
secure id maps to `MobileUnsecured`. -/
def CdnServer.from_component_list_id (server_id : String) : CdnServer :=
  if server_id = "SERVER_SECURE" then .MobileSecure else .MobileUnsecured

/-- The `ComponentBlock` dataclass of `glomo.py`. -/
structure ComponentBlock where
  component_name : String
  cdn_subdomain : CdnServer
  package_path : String
  manifest_versions : List Int
  require_auth : Bool
  sim_version_low : Int
  sim_version_high : Int
deriving DecidableEq

/-- `ComponentBlock.__str__`: the fixed 6-line template with a trailing blank
line.  `none` models the `IndexError` raised when `manifest_versions` has
fewer than two elements. -/
def ComponentBlock.toStr (b : ComponentBlock) : Option String :=
  match b.manifest_versions with
  | v0 :: v1 :: _ =>
    some ("COMPONENT com.laminarresearch.xplane_10." ++ b.component_name ++ "\n"
      ++ CdnServer.for_component_list b.cdn_subdomain ++ "\n"
      ++ b.package_path ++ "\n"
      ++ "MANIFEST_VERSIONS " ++ toString v0 ++ " " ++ toString v1 ++ "\n"
      ++ "REQUIRE_AUTH " ++ (if b.require_auth then "1" else "0") ++ "\n"
      ++ "SIM_VERSIONS " ++ toString b.sim_version_low ++ "-"
      ++ toString b.sim_version_high ++ "\n\n")
  | _ => none

/-- `ComponentBlock.from_str`: strip, split into exactly six lines, then
extract each field exactly as the source does; any assertion failure,
`IndexError` or `ValueError` is `none`.  Note `require_auth` is
`bool(text-after-token.strip())`: true exactly when something non-blank
follows `REQUIRE_AUTH`. -/
def ComponentBlock.from_str (file_text : String) : Option ComponentBlock :=
  match pySplitLines (pyStrip file_text) with
  | [l0, l1, l2, l3, l4, l5] =>
    match pySplitOnce l5 "SIM_VERSIONS " with
    | none => none
    | some simRest =>
      let sim_versions_str := pySplitWs simRest
      if ("/".data).isPrefixOf l2.data then
        match pySplitOnce l0 "com.laminarresearch.xplane_10." with
        | none => none
        | some name =>
          match pySplitOnce l3 "MANIFEST_VERSIONS " with
          | none => none
          | some mvRest =>
            match (pySplitWs (pyStrip mvRest)).mapM pyInt with
            | none => none
            | some mvs =>
              match pySplitOnce l4 "REQUIRE_AUTH" with
              | none => none
              | some authRest =>
                match sim_versions_str with
                | s0 :: s1 :: _ =>
                  match pyInt s0, pyInt s1 with
                  | some lo, some hi =>
                    some { component_name := name
                           cdn_subdomain := CdnServer.from_component_list_id l1
                           package_path := l2
                           manifest_versions := mvs
                           require_auth := !(pyStrip authRest).isEmpty
                           sim_version_low := lo
                           sim_version_high := hi }
                  | _, _ => none
                | _ => none
      else none
  | _ => none

/-- `parse_component_list`, taking the already-fetched document text:
cut everything before the first `COMPONENT ` token and everything from
`ENDOFLIST` on, split on the token, parse each non-empty fragment. -/
def parse_component_list (component_list : String) : Option (List ComponentBlock) :=
  match pySplitOnce component_list "COMPONENT " with
  | none => none
  | some afterTok =>
    let skipped_header := "COMPONENT " ++ afterTok
    let nuked_end := pySplitFirst skipped_header "ENDOFLIST"
    ((pySplit nuked_end "COMPONENT ").filter (fun b => !b.isEmpty)).mapM
      (fun block => ComponentBlock.from_str ("COMPONENT " ++ block))

/-- The loop body of `component_list_version`, carrying the
`next_line_is_version` flag; `none` models the `RuntimeError`, the failed
duplicate-marker `assert`, and `int`'s `ValueError`. -/
def component_list_version_lines : Bool → List String → Option Int
  | _, [] => none
  | next_line_is_version, line :: rest =>
    if pyRstrip line = "COMPONENTS" then
      if next_line_is_version then none
      else component_list_version_lines true rest
    else if next_line_is_version then pyInt line
    else component_list_version_lines false rest

/-- `component_list_version`, taking the already-fetched document text. -/
def component_list_version (text : String) : Option Int :=
  component_list_version_lines false (pySplitLines text)

/-!
## The manifest grammar (`ComponentManifest.from_file`)

Each regex of the source is embedded as a deterministic scanner.  All the
regexes are sequences of greedy atoms separated by `\s+`; none of the atoms
that precede a `\s+` can end at a position whose next character would let
`\s+` start matching after giving characters back (digit runs, `\S+` runs
and escaped-path runs only ever stop right before whitespace, end of input,
or a dangling backslash), so the greedy scan is an exact model of the
backtracking engine.  The only atom needing a backtracking step is a final
`\s+(.+)`, handled in `wsRest1P`.
-/

/-- A literal atom of a regex (also used for `str.startswith`). -/
def litP (pat l : List Char) : Option (List Char) :=
  if pat.isPrefixOf l then some (l.drop pat.length) else none

/-- `\s+`. -/
def ws1P : List Char → Option (List Char)
  | [] => none
  | c :: rest => if pyIsSpace c then some (rest.dropWhile pyIsSpace) else none

/-- A non-empty digit run (`[0-9]+`), returning (group, rest). -/
def digitRun1 (l : List Char) : Option (List Char × List Char) :=
  let ds := l.takeWhile Char.isDigit
  if ds.isEmpty then none else some (ds, l.dropWhile Char.isDigit)

/-- `([-+]?\d+)`. -/
def signedIntP : List Char → Option (List Char × List Char)
  | [] => none
  | c :: rest =>
    if c == '-' || c == '+' then (digitRun1 rest).map (fun pr => (c :: pr.1, pr.2))
    else digitRun1 (c :: rest)

/-- `(\S+)`. -/
def nonSpace1P : List Char → Option (List Char × List Char)
  | [] => none
  | c :: rest =>
    if pyIsSpace c then none
    else some ((c :: rest).takeWhile (fun d => !pyIsSpace d),
               (c :: rest).dropWhile (fun d => !pyIsSpace d))

/-- The unsigned part of the float regex `(?:[0-9]*[.])?[0-9]+`: a digit run
optionally continuing past a dot, falling back to the bare digit run when no
digits follow the dot. -/
def floatCore (l : List Char) : Option (List Char × List Char) :=
  let d1 := l.takeWhile Char.isDigit
  let r1 := l.dropWhile Char.isDigit
  match r1 with
  | '.' :: r2 =>
    let d2 := r2.takeWhile Char.isDigit
    if d2.isEmpty then (if d1.isEmpty then none else some (d1, r1))
    else some (d1 ++ '.' :: d2, r2.dropWhile Char.isDigit)
  | _ => if d1.isEmpty then none else some (d1, r1)

/-- `([+-]?(?:[0-9]*[.])?[0-9]+)`. -/
def floatP : List Char → Option (List Char × List Char)
  | [] => none
  | c :: rest =>
    if c == '-' || c == '+' then (floatCore rest).map (fun pr => (c :: pr.1, pr.2))
    else floatCore (c :: rest)

/-- The maximal run of `(?:[^\\\s]|\\.)` units: a non-backslash
non-whitespace character, or a backslash plus any non-newline character. -/
def escUnits : List Char → List Char × List Char
  | [] => ([], [])
  | ['\\'] => ([], ['\\'])
  | '\\' :: c :: rest =>
    if c = '\n' then ([], '\\' :: c :: rest)
    else
      match escUnits rest with
      | (u, r) => ('\\' :: c :: u, r)
  | c :: rest =>
    if pyIsSpace c then ([], c :: rest)
    else
      match escUnits rest with
      | (u, r) => (c :: u, r)

/-- `((?:[^\\\s]|\\.)+)`: a non-empty escaped-path run. -/
def escRunP (l : List Char) : Option (List Char × List Char) :=
  match escUnits l with
  | ([], _) => none
  | (u, r) => some (u, r)

/-- A final `\s+(.+)`: the whitespace run is greedy, but when nothing
follows it the engine gives one character back to `.+`; `.` never matches
`'\n'` (lines produced by `splitlines` contain none). -/
def wsRest1P : List Char → Option (List Char)
  | [] => none
  | c :: rest =>
    if pyIsSpace c then
      let b := ((c :: rest).dropWhile pyIsSpace)
      if b.isEmpty then
        if h : rest.isEmpty then none
        else
          let lastC := (c :: rest).getLast (by simp)
          if lastC = '\n' then none else some [lastC]
      else some (b.takeWhile (fun d => d != '\n'))
    else none

/-- A final `\s+(.*)`: like `wsRest1P` but the group may be empty, so no
give-back step exists. -/
def wsRest0P : List Char → Option (List Char)
  | [] => none
  | c :: rest =>
    if pyIsSpace c then
      some (((c :: rest).dropWhile pyIsSpace).takeWhile (fun d => d != '\n'))
    else none

/-- A leading literal followed by `\s+`. -/
def litWs (pat l : List Char) : Option (List Char) :=
  (litP pat l).bind ws1P

/-- A captured token followed by `\s+`: returns (group, rest after the
whitespace run). -/
def tokWs (tok : List Char → Option (List Char × List Char)) (l : List Char) :
    Option (List Char × List Char) :=
  (tok l).bind fun pr => (ws1P pr.2).map fun r => (pr.1, r)

/-- The `([-+]?\d+)\s+` atom repeated four times (the shared head of the
`RAWFILE` and `ZIPFILE` regexes): returns (groups 1-4, rest). -/
def fourIntsWs (l : List Char) : Option (List (List Char) × List Char) :=
  (tokWs signedIntP l).bind fun p1 =>
  (tokWs signedIntP p1.2).bind fun p2 =>
  (tokWs signedIntP p2.2).bind fun p3 =>
  (tokWs signedIntP p3.2).bind fun p4 =>
  some ([p1.1, p2.1, p3.1, p4.1], p4.2)

/-- `^MANIFEST_VERSION\s+([0-9]+)\s*$`, returning the version. -/
def matchManifestVersion (l : List Char) : Option Nat :=
  (litWs "MANIFEST_VERSION".data l).bind fun r =>
  (digitRun1 r).bind fun p =>
  if p.2.all pyIsSpace then some (digitsVal p.1) else none

/-- `^INSTALL_PATH_PREFIX\s+(.*)`, returning the captured group. -/
def matchInstallPath (l : List Char) : Option (List Char) :=
  (litP "INSTALL_PATH_PREFIX".data l).bind wsRest0P

/-- The nine groups of the `RAWFILE` regex. -/
structure RawfileGroups where
  g1 : List Char
  g2 : List Char
  g3 : List Char
  g4 : List Char
  g5 : List Char
  g6 : List Char
  g7 : List Char
  g8 : List Char
  g9 : List Char
deriving DecidableEq

/-- `^RAWFILE\s+([-+]?\d+)\s+([-+]?\d+)\s+([-+]?\d+)\s+([-+]?\d+)\s+(\S+)`
`\s+(float)\s+(\S+)\s+(esc-path)\s+(esc-path)`. -/
def matchRawfile (l : List Char) : Option RawfileGroups :=
  (litWs "RAWFILE".data l).bind fun r =>
  (fourIntsWs r).bind fun ints =>
  (tokWs nonSpace1P ints.2).bind fun p5 =>
  (tokWs floatP p5.2).bind fun p6 =>
  (tokWs nonSpace1P p6.2).bind fun p7 =>
  (tokWs escRunP p7.2).bind fun p8 =>
  (escRunP p8.2).bind fun p9 =>
  match ints.1 with
  | [g1, g2, g3, g4] => some ⟨g1, g2, g3, g4, p5.1, p6.1, p7.1, p8.1, p9.1⟩
  | _ => none

/-- The four groups of the `ZIP` regex. -/
structure ZipGroups where
  g1 : List Char
  g2 : List Char
  g3 : List Char
  g4 : List Char
deriving DecidableEq

/-- `^ZIP\s+(float)\s+(\S+)\s+(esc-path)\s+(esc-path)`. -/
def matchZip (l : List Char) : Option ZipGroups :=
  (litWs "ZIP".data l).bind fun r =>
  (tokWs floatP r).bind fun p1 =>
  (tokWs nonSpace1P p1.2).bind fun p2 =>
  (tokWs escRunP p2.2).bind fun p3 =>
  (escRunP p3.2).bind fun p4 =>
  some ⟨p1.1, p2.1, p3.1, p4.1⟩

/-- The eight groups of the `ZIPFILE` regex. -/
structure ZipfileGroups where
  g1 : List Char
  g2 : List Char
  g3 : List Char
  g4 : List Char
  g5 : List Char
  g6 : List Char
  g7 : List Char
  g8 : List Char
deriving DecidableEq

/-- `^ZIPFILE\s+([-+]?\d+)\s+([-+]?\d+)\s+([-+]?\d+)\s+([-+]?\d+)\s+(\S+)`
`\s+(float)\s+(\S+)\s+(.+)`. -/
def matchZipfile (l : List Char) : Option ZipfileGroups :=
  (litWs "ZIPFILE".data l).bind fun r =>
  (fourIntsWs r).bind fun ints =>
  (tokWs nonSpace1P ints.2).bind fun p5 =>
  (tokWs floatP p5.2).bind fun p6 =>
  (nonSpace1P p6.2).bind fun p7 =>
  (wsRest1P p7.2).bind fun g8 =>
  match ints.1 with
  | [g1, g2, g3, g4] => some ⟨g1, g2, g3, g4, p5.1, p6.1, p7.1, g8⟩
  | _ => none

/-- `^FILE_HISTORY\s+([0-9]+)\s+(.+)`, returning (version, path). -/
def matchFileHistory (l : List Char) : Option (Nat × List Char) :=
  (litWs "FILE_HISTORY".data l).bind fun r =>
  (digitRun1 r).bind fun pr =>
  (wsRest1P pr.2).bind fun p =>
  some (digitsVal pr.1, p)

/-- `ComponentManifest.unescape_spaces`: `s.replace("\\ ", " ")`. -/
def unescapeSpacesList : List Char → List Char
  | [] => []
  | '\\' :: ' ' :: rest => ' ' :: unescapeSpacesList rest
  | c :: rest => c :: unescapeSpacesList rest

/-- String-level `unescape_spaces`. -/
def unescape_spaces (s : String) : String := (unescapeSpacesList s.data).asString

/-- The two-argument POSIX path join used by the source, covering both
`os.path.join(a, b)` and `pathlib.Path(a) / b` for the inputs the manifest
format produces: an absolute right side wins; an empty left side (Python's
`Path('')`, i.e. `'.'`) contributes nothing; otherwise the sides are joined
with exactly one `'/'`.  (`pathlib`'s `.`/`..`/double-slash normalization
is not modelled; the joined fragments never contain them.) -/
def pyPathJoin (a b : String) : String :=
  if ("/".data).isPrefixOf b.data then b
  else if a = "" then b
  else if a.data.getLast? = some '/' then a ++ b
  else a ++ "/" ++ b

/-- The `ManifestEntry` dataclass: a content hash, plus the containing ZIP
path for `ZIPFILE` entries (`none` for a loose `RAWFILE`). -/
structure ManifestEntry where
  hash : String
  in_zip : Option String := none
deriving DecidableEq

/-- The `ComponentManifest` dataclass.  The dicts of the source are modelled
as insertion-ordered association lists; `install_path_pfx` embeds the
source's `install_path_prefix` field, and `history` stores the version of
each `ManifestHistory` value directly. -/
structure ComponentManifest where
  version : Int
  install_path_pfx : String
  entries : List (String × List ManifestEntry)
  history : List (String × Int)
  zips : List (String × String)
deriving DecidableEq

-- Decidable equality for `Except`, used to evaluate parse results in
-- witnesses and counterexamples.
deriving instance DecidableEq for Except

/-- The errors `from_file` can raise (named after the spec's error kinds;
each corresponds to one `assert`/`raise` in the source). -/
inductive ManifestError where
  | malformedManifestLine (line : String)
  | duplicateRawFile (path : String)
  | duplicateZipEntry (path : String)
  | missingZipContext (line : String)
  | duplicateHistoryEntry (path : String)
deriving DecidableEq

/-- The mutable locals of the `from_file` loop. -/
structure ParseState where
  version : Int
  install_path_pfx : String
  entries : List (String × List ManifestEntry)
  history : List (String × Int)
  zips : List (String × String)
  most_recent_zip : Option String
deriving DecidableEq

/-- The locals' initial values (`prev_manifest_version = -1`, everything
else empty). -/
def initState : ParseState := ⟨-1, "", [], [], [], none⟩

/-- `defaultdict(list)` read: the entry list of a path, `[]` when absent. -/
def entriesGet (m : List (String × List ManifestEntry)) (k : String) :
    List ManifestEntry :=
  match m.lookup k with
  | some es => es
  | none => []

/-- `entries[path].append(e)` on a `defaultdict(list)`. -/
def entriesAppend : List (String × List ManifestEntry) → String → ManifestEntry →
    List (String × List ManifestEntry)
  | [], k, e => [(k, [e])]
  | (k', es) :: rest, k, e =>
    if k' = k then (k', es ++ [e]) :: rest
    else (k', es) :: entriesAppend rest k e

/-- `d[k] = v` on a dict (overwrite in place, insert at the end). -/
def dictSet : List (String × String) → String → String → List (String × String)
  | [], k, v => [(k, v)]
  | (k', v') :: rest, k, v =>
    if k' = k then (k, v) :: rest
    else (k', v') :: dictSet rest k v

/-- One iteration of the `from_file` line loop, faithful to the source's
`if`/`elif` chain: until the version is found every line is at most a
`MANIFEST_VERSION` header; afterwards `INSTALL_PATH_PREFIX` is honored only
while the prefix is still empty, lines starting with `ZIP`/`ZIPFILE`/
`RAWFILE` are tried against the three record regexes in that order and raise
`MalformedManifestLine` when all three fail, `FILE_HISTORY` lines are
recorded, and every other line falls off the chain and is skipped. -/
def processLine (st : ParseState) (line : String) : Except ManifestError ParseState :=
  let l := line.data
  if st.version = -1 then
    match matchManifestVersion l with
    | some v => .ok { st with version := Int.ofNat v }
    | none => .ok st
  else if st.install_path_pfx = "" ∧ ("INSTALL_PATH_PREFIX".data).isPrefixOf l then
    match matchInstallPath l with
    | some g => .ok { st with install_path_pfx := unescape_spaces g.asString }
    | none => .ok st
  else if ("ZIP".data).isPrefixOf l ∨ ("ZIPFILE".data).isPrefixOf l
      ∨ ("RAWFILE".data).isPrefixOf l then
    match matchRawfile l with
    | some g =>
      let path := unescape_spaces (pyPathJoin st.install_path_pfx g.g8.asString)
      if (entriesGet st.entries path).all (fun e => e.in_zip.isSome) then
        .ok { st with entries := entriesAppend st.entries path ⟨g.g7.asString, none⟩ }
      else .error (.duplicateRawFile path)
    | none =>
      match matchZip l with
      | some g =>
        let mrz := pyPathJoin st.install_path_pfx (unescape_spaces g.g3.asString)
        .ok { st with most_recent_zip := some mrz, zips := dictSet st.zips mrz g.g2.asString }
      | none =>
        match matchZipfile l with
        | some g =>
          match st.most_recent_zip with
          | none => .error (.missingZipContext line)
          | some mrz =>
            let path := unescape_spaces (pyPathJoin st.install_path_pfx g.g8.asString)
            if (entriesGet st.entries path).any (fun e => e.in_zip == some mrz) then
              .error (.duplicateZipEntry path)
            else
              .ok { st with entries := entriesAppend st.entries path ⟨g.g7.asString, some mrz⟩ }
        | none => .error (.malformedManifestLine line)
  else if ("FILE_HISTORY".data).isPrefixOf l then
    match matchFileHistory l with
    | some (v, p) =>
      if (st.history.lookup p.asString).isSome then
        .error (.duplicateHistoryEntry p.asString)
      else .ok { st with history := st.history ++ [(p.asString, Int.ofNat v)] }
    | none => .ok st
  else .ok st

/-- `ComponentManifest.from_file`, taking the already-fetched manifest text
(`none` models a falsy locator: no manifest existed, a valid result). -/
def ComponentManifest.from_file (src : Option String) :
    Except ManifestError (Option ComponentManifest) :=
  match src with
  | none => Except.ok none
  | some text => do
    let st ← (pySplitLines text).foldlM processLine initState
    pure (some ⟨st.version, st.install_path_pfx, st.entries, st.history, st.zips⟩)

/-- `ComponentManifest.from_file_with_next_version`: a parsed manifest is
always truthy, so `next_version` is `version + 1` when a manifest came back
and `1` otherwise. -/
def ComponentManifest.from_file_with_next_version (src : Option String) :
    Except ManifestError (Option ComponentManifest × Int) := do
  let m ← ComponentManifest.from_file src
  pure (m, match m with | some mf => mf.version + 1 | none => 1)

/-- The number of container-less (`RAWFILE`) entries in an entry list. -/
def rawCount (es : List ManifestEntry) : Nat :=
  (es.filter (fun e => e.in_zip == none)).length

/-!
## Helper lemmas
-/

theorem except_bind_ok {ε α β : Type} (a : α) (f : α → Except ε β) :
    (Except.ok a >>= f) = f a := rfl

theorem except_bind_error {ε α β : Type} (e : ε) (f : α → Except ε β) :
    ((Except.error e : Except ε α) >>= f) = Except.error e := rfl

theorem processLine_version_skip (st : ParseState) (line : String)
    (hv : st.version = -1) (hm : matchManifestVersion line.data = none) :
    processLine st line = .ok st := by
  simp [processLine, hv, hm]

theorem foldlM_version_skip (lines : List String) :
    ∀ st : ParseState, st.version = -1 →
      (∀ l ∈ lines, matchManifestVersion l.data = none) →
      lines.foldlM processLine st = .ok st := by
  induction lines with
  | nil => intro st _ _; rfl
  | cons a as ih =>
    intro st hv h
    rw [List.foldlM_cons, processLine_version_skip st a hv (h a (List.mem_cons_self a as))]
    exact ih st hv (fun l hl => h l (List.mem_cons_of_mem a hl))

theorem processLine_most_recent_zip_none (st st' : ParseState) (line : String)
    (h : processLine st line = .ok st') (hz : matchZip line.data = none)
    (hmz : st.most_recent_zip = none) : st'.most_recent_zip = none := by
  simp only [processLine] at h
  repeat' split at h
  all_goals simp_all
  all_goals (cases h; simp_all)

theorem foldlM_most_recent_zip_none (lines : List String) :
    ∀ st st' : ParseState, (∀ l ∈ lines, matchZip l.data = none) →
      lines.foldlM processLine st = .ok st' →
      st.most_recent_zip = none → st'.most_recent_zip = none := by
  induction lines with
  | nil =>
    intro st st' _ h hmz
    rw [List.foldlM_nil] at h
    cases h
    exact hmz
  | cons a as ih =>
    intro st st' hzl h hmz
    rw [List.foldlM_cons] at h
    cases hpa : processLine st a with
    | error e => rw [hpa, except_bind_error] at h; cases h
    | ok mid =>
      rw [hpa, except_bind_ok] at h
      exact ih mid st' (fun l hl => hzl l (List.mem_cons_of_mem a hl)) h
        (processLine_most_recent_zip_none st mid a hpa (hzl a (List.mem_cons_self a as)) hmz)

theorem zipfile_line_shape {l : List Char} (h : (matchZipfile l).isSome) :
    ∃ t, l = 'Z' :: 'I' :: 'P' :: 'F' :: 'I' :: 'L' :: 'E' :: t := by
  unfold matchZipfile litWs litP at h
  by_cases hp : ("ZIPFILE".data).isPrefixOf l
  · obtain ⟨t, ht⟩ := List.isPrefixOf_iff_prefix.mp hp
    exact ⟨t, ht.symm⟩
  · simp [hp] at h

theorem matchZip_zipfile_shape_none (t : List Char) :
    matchZip ('Z' :: 'I' :: 'P' :: 'F' :: 'I' :: 'L' :: 'E' :: t) = none := by
  simp [matchZip, litWs, litP, ws1P, pyIsSpace, List.isPrefixOf]

theorem matchRawfile_zipfile_shape_none (t : List Char) :
    matchRawfile ('Z' :: 'I' :: 'P' :: 'F' :: 'I' :: 'L' :: 'E' :: t) = none := by
  simp [matchRawfile, litWs, litP, List.isPrefixOf]

theorem processLine_zipfile_no_context (st : ParseState) (line : String)
    (hv : ¬ st.version = -1) (hmz : st.most_recent_zip = none)
    (hzf : (matchZipfile line.data).isSome) :
    processLine st line = .error (.missingZipContext line) := by
  obtain ⟨t, ht⟩ := zipfile_line_shape hzf
  obtain ⟨g, hg⟩ := Option.isSome_iff_exists.mp hzf
  have hraw : matchRawfile line.data = none := by
    rw [ht]; exact matchRawfile_zipfile_shape_none t
  have hzipn : matchZip line.data = none := by
    rw [ht]; exact matchZip_zipfile_shape_none t
  simp only [processLine]
  rw [if_neg hv]
  rw [if_neg, if_pos, hraw, hzipn]
  · rw [hg, hmz]
  · rw [ht]
    exact Or.inl (by simp [List.isPrefixOf])
  · rw [ht]
    rintro ⟨-, hc⟩
    simp [List.isPrefixOf] at hc

theorem rawCount_nil : rawCount [] = 0 := rfl

theorem rawCount_all_zipped (es : List ManifestEntry)
    (h : es.all (fun e => e.in_zip.isSome) = true) : rawCount es = 0 := by
  induction es with
  | nil => rfl
  | cons e es ih =>
    simp only [List.all_cons, Bool.and_eq_true] at h
    have hz : (e.in_zip == none) = false := by
      cases hz : e.in_zip with
      | none => rw [hz] at h; simp at h
      | some z => rfl
    have hstep : rawCount (e :: es) = rawCount es := by
      simp [rawCount, List.filter_cons, hz]
    rw [hstep]
    exact ih h.2

theorem rawCount_append_raw (es : List ManifestEntry) (hash : String) :
    rawCount (es ++ [⟨hash, none⟩]) = rawCount es + 1 := by
  simp [rawCount, List.filter_append]

theorem rawCount_append_zip (es : List ManifestEntry) (hash mrz : String) :
    rawCount (es ++ [⟨hash, some mrz⟩]) = rawCount es := by
  simp [rawCount, List.filter_append]

theorem lookup_entriesAppend (m : List (String × List ManifestEntry)) (k p : String)
    (e : ManifestEntry) :
    List.lookup p (entriesAppend m k e) =
      if p = k then some (entriesGet m p ++ [e]) else List.lookup p m := by
  induction m with
  | nil =>
    by_cases hpk : p = k
    · simp [entriesAppend, entriesGet, List.lookup, hpk]
    · simp [entriesAppend, entriesGet, List.lookup, hpk, beq_eq_false_iff_ne.mpr hpk]
  | cons hd tl ih =>
    obtain ⟨k', es⟩ := hd
    by_cases hk : k' = k
    · subst hk
      by_cases hpk : p = k'
      · subst hpk
        simp [entriesAppend, entriesGet, List.lookup]
      · simp [entriesAppend, entriesGet, List.lookup, hpk, beq_eq_false_iff_ne.mpr hpk]
    · by_cases hpk : p = k'
      · subst hpk
        have hpk2 : ¬ p = k := fun hc => hk hc
        simp [entriesAppend, entriesGet, List.lookup, hk, hpk2]
      · simp [entriesAppend, entriesGet, List.lookup, hk, hpk,
          beq_eq_false_iff_ne.mpr hpk, ih]

theorem entriesGet_append (m : List (String × List ManifestEntry)) (k p : String)
    (e : ManifestEntry) :
    entriesGet (entriesAppend m k e) p =
      if p = k then entriesGet m p ++ [e] else entriesGet m p := by
  by_cases hpk : p = k
  · simp only [entriesGet, lookup_entriesAppend, if_pos hpk]
  · simp only [entriesGet, lookup_entriesAppend, if_neg hpk]

theorem rawCount_after_append_raw (m : List (String × List ManifestEntry))
    (path hash : String)
    (hall : (entriesGet m path).all (fun e => e.in_zip.isSome) = true)
    (hinv : ∀ p, rawCount (entriesGet m p) ≤ 1) (p : String) :
    rawCount (entriesGet (entriesAppend m path ⟨hash, none⟩) p) ≤ 1 := by
  by_cases hpk : p = path
  · subst hpk
    rw [entriesGet_append, if_pos rfl, rawCount_append_raw, rawCount_all_zipped _ hall]
  · rw [entriesGet_append, if_neg hpk]
    exact hinv p

theorem rawCount_after_append_zip (m : List (String × List ManifestEntry))
    (path hash mrz : String)
    (hinv : ∀ p, rawCount (entriesGet m p) ≤ 1) (p : String) :
    rawCount (entriesGet (entriesAppend m path ⟨hash, some mrz⟩) p) ≤ 1 := by
  by_cases hpk : p = path
  · subst hpk
    rw [entriesGet_append, if_pos rfl, rawCount_append_zip]
    exact hinv _
  · rw [entriesGet_append, if_neg hpk]
    exact hinv p

theorem processLine_rawCount (st st' : ParseState) (line : String)
    (h : processLine st line = .ok st')
    (hinv : ∀ p, rawCount (entriesGet st.entries p) ≤ 1) :
    ∀ p, rawCount (entriesGet st'.entries p) ≤ 1 := by
  intro p
  simp only [processLine] at h
  repeat' split at h
  all_goals (try cases h)
  all_goals try exact hinv p
  · exact rawCount_after_append_raw st.entries _ _ (by assumption) hinv p
  · exact rawCount_after_append_zip st.entries _ _ _ hinv p

theorem foldlM_rawCount (lines : List String) :
    ∀ st st' : ParseState, lines.foldlM processLine st = .ok st' →
      (∀ p, rawCount (entriesGet st.entries p) ≤ 1) →
      ∀ p, rawCount (entriesGet st'.entries p) ≤ 1 := by
  induction lines with
  | nil =>
    intro st st' h hinv
    rw [List.foldlM_nil] at h
    cases h
    exact hinv
  | cons a as ih =>
    intro st st' h hinv
    rw [List.foldlM_cons] at h
    cases hpa : processLine st a with
    | error e => rw [hpa, except_bind_error] at h; cases h
    | ok mid =>
      rw [hpa, except_bind_ok] at h
      exact ih mid st' h (processLine_rawCount st mid a hpa hinv)

theorem initState_rawCount : ∀ p, rawCount (entriesGet initState.entries p) ≤ 1 := by
  intro p
  simp [initState, entriesGet, List.lookup, rawCount]

theorem clvl_none_of_no_marker :
    ∀ lines : List String, (∀ l ∈ lines, ¬ pyRstrip l = "COMPONENTS") →
      component_list_version_lines false lines = none := by
  intro lines
  induction lines with
  | nil => intro _; rfl
  | cons a as ih =>
    intro h
    have ha := h a (List.mem_cons_self a as)
    simp only [component_list_version_lines, if_neg ha, if_neg (Bool.false_ne_true)]
    exact ih (fun l hl => h l (List.mem_cons_of_mem a hl))

theorem clvl_after_marker :
    ∀ (before : List String) (m follow : String) (rest : List String),
      (∀ l ∈ before, ¬ pyRstrip l = "COMPONENTS") → pyRstrip m = "COMPONENTS" →
      component_list_version_lines false (before ++ m :: follow :: rest) =
        if pyRstrip follow = "COMPONENTS" then none else pyInt follow := by
  intro before
  induction before with
  | nil =>
    intro m follow rest _ hm
    simp only [List.nil_append, component_list_version_lines, if_pos hm]
    by_cases hf : pyRstrip follow = "COMPONENTS"
    · simp [component_list_version_lines, hf]
    · simp [component_list_version_lines, hf]
  | cons a as ih =>
    intro m follow rest h hm
    have ha := h a (List.mem_cons_self a as)
    simp only [List.cons_append, component_list_version_lines, if_neg ha,
      if_neg (Bool.false_ne_true)]
    exact ih m follow rest (fun l hl => h l (List.mem_cons_of_mem a hl)) hm

theorem clvl_marker_last :
    ∀ (before : List String) (m : String),
      (∀ l ∈ before, ¬ pyRstrip l = "COMPONENTS") → pyRstrip m = "COMPONENTS" →
      component_list_version_lines false (before ++ [m]) = none := by
  intro before
  induction before with
  | nil =>
    intro m _ hm
    simp [component_list_version_lines, hm]
  | cons a as ih =>
    intro m h hm
    have ha := h a (List.mem_cons_self a as)
    simp only [List.cons_append, component_list_version_lines, if_neg ha,
      if_neg (Bool.false_ne_true)]
    exact ih m (fun l hl => h l (List.mem_cons_of_mem a hl)) hm

theorem zipFamily_not_install {l : List Char}
    (h : ("ZIP".data).isPrefixOf l = true ∨ ("ZIPFILE".data).isPrefixOf l = true
      ∨ ("RAWFILE".data).isPrefixOf l = true) :
    ("INSTALL_PATH_PREFIX".data).isPrefixOf l = false
      ∧ ("FILE_HISTORY".data).isPrefixOf l = false := by
  rcases h with h | h | h <;>
  · obtain ⟨t, ht⟩ := List.isPrefixOf_iff_prefix.mp h
    constructor <;> simp [← ht, List.isPrefixOf]

theorem rawfile_line_shape {l : List Char} (h : (matchRawfile l).isSome) :
    ∃ t, l = 'R' :: 'A' :: 'W' :: 'F' :: 'I' :: 'L' :: 'E' :: t := by
  unfold matchRawfile litWs litP at h
  by_cases hp : ("RAWFILE".data).isPrefixOf l
  · obtain ⟨t, ht⟩ := List.isPrefixOf_iff_prefix.mp hp
    exact ⟨t, ht.symm⟩
  · simp [hp] at h

theorem install_line_shape {l : List Char}
    (h : ("INSTALL_PATH_PREFIX".data).isPrefixOf l = true) :
    ("ZIP".data).isPrefixOf l = false ∧ ("ZIPFILE".data).isPrefixOf l = false
      ∧ ("RAWFILE".data).isPrefixOf l = false
      ∧ ("FILE_HISTORY".data).isPrefixOf l = false := by
  obtain ⟨t, ht⟩ := List.isPrefixOf_iff_prefix.mp h
  refine ⟨?_, ?_, ?_, ?_⟩ <;> simp [← ht, List.isPrefixOf]

theorem fileHistory_line_shape {l : List Char}
    (h : ("FILE_HISTORY".data).isPrefixOf l = true) :
    ("INSTALL_PATH_PREFIX".data).isPrefixOf l = false
      ∧ ("ZIP".data).isPrefixOf l = false ∧ ("ZIPFILE".data).isPrefixOf l = false
      ∧ ("RAWFILE".data).isPrefixOf l = false := by
  obtain ⟨t, ht⟩ := List.isPrefixOf_iff_prefix.mp h
  refine ⟨?_, ?_, ?_, ?_⟩ <;> simp [← ht, List.isPrefixOf]

/-!
## The claims
-/

/-- C1 (code_bug evidence): serializing a well-formed `ComponentBlock` and
parsing the result does not return the original block — it fails outright:
`__str__` writes `SIM_VERSIONS 10-11` but `from_str` whitespace-splits that
line and calls `int('10-11')`, which raises `ValueError` (and `REQUIRE_AUTH
0` would additionally read back as `True`).  The round-trip law
`Parse(Serialize(block)) == block` therefore fails for every block. -/
theorem componentBlock_roundtrip_fails :
    ComponentBlock.toStr ⟨"demo", .MobileSecure, "/pkg", [1, 2], true, 10, 11⟩ =
      some "COMPONENT com.laminarresearch.xplane_10.demo\nSERVER_SECURE\n/pkg\nMANIFEST_VERSIONS 1 2\nREQUIRE_AUTH 1\nSIM_VERSIONS 10-11\n\n"
    ∧ ComponentBlock.from_str
        "COMPONENT com.laminarresearch.xplane_10.demo\nSERVER_SECURE\n/pkg\nMANIFEST_VERSIONS 1 2\nREQUIRE_AUTH 1\nSIM_VERSIONS 10-11\n\n"
        = none := by
  constructor
  · decide
  · decide

/-- C2 counterexample: a line after the `MANIFEST_VERSION` header that
matches no recognized record kind is silently skipped (the parse succeeds
with an empty manifest), contradicting the claim that every such line is a
fatal `MalformedManifestLine` error. -/
theorem unrecognized_line_skipped_cex :
    ComponentManifest.from_file (some "MANIFEST_VERSION 1\nJUNK LINE") =
      .ok (some ⟨1, "", [], [], []⟩) := by decide

/-- C2 amended: once the version has been found, a line starting with
`ZIP`, `ZIPFILE` or `RAWFILE` that matches none of the three record regexes
is a fatal `MalformedManifestLine`; a `MalformedManifestLine` error can only
arise from such a line; a line starting with none of the five recognized
keywords is skipped with the state unchanged; and an `INSTALL_PATH_PREFIX`
or `FILE_HISTORY` line whose regex fails is likewise skipped with the state
unchanged. -/
theorem malformed_error_only_for_zip_family :
    (∀ (st : ParseState) (line : String), ¬ st.version = -1 →
      (("ZIP".data).isPrefixOf line.data = true ∨ ("ZIPFILE".data).isPrefixOf line.data = true
        ∨ ("RAWFILE".data).isPrefixOf line.data = true) →
      matchRawfile line.data = none → matchZip line.data = none →
      matchZipfile line.data = none →
      processLine st line = .error (.malformedManifestLine line))
    ∧ (∀ (st : ParseState) (line e : String),
        processLine st line = .error (.malformedManifestLine e) →
        ("ZIP".data).isPrefixOf line.data = true ∨ ("ZIPFILE".data).isPrefixOf line.data = true
          ∨ ("RAWFILE".data).isPrefixOf line.data = true)
    ∧ (∀ (st : ParseState) (line : String), ¬ st.version = -1 →
        ¬ (("ZIP".data).isPrefixOf line.data = true
            ∨ ("ZIPFILE".data).isPrefixOf line.data = true
            ∨ ("RAWFILE".data).isPrefixOf line.data = true) →
        ("INSTALL_PATH_PREFIX".data).isPrefixOf line.data = false →
        ("FILE_HISTORY".data).isPrefixOf line.data = false →
        processLine st line = .ok st)
    ∧ (∀ (st : ParseState) (line : String), ¬ st.version = -1 →
        ("INSTALL_PATH_PREFIX".data).isPrefixOf line.data = true →
        matchInstallPath line.data = none →
        processLine st line = .ok st)
    ∧ (∀ (st : ParseState) (line : String), ¬ st.version = -1 →
        ("FILE_HISTORY".data).isPrefixOf line.data = true →
        matchFileHistory line.data = none →
        processLine st line = .ok st) := by
  refine ⟨?_, ?_, ?_, ?_, ?_⟩
  · intro st line hv hfam hraw hzip hzf
    obtain ⟨hni, -⟩ := zipFamily_not_install hfam
    simp only [processLine]
    rw [if_neg hv, if_neg (fun hc => Bool.false_ne_true (hni ▸ hc.2)),
      if_pos hfam, hraw, hzip, hzf]
  · intro st line e h
    simp only [processLine] at h
    repeat' split at h
    all_goals simp_all
  · intro st line hv hfam hinst hfh
    simp only [processLine]
    rw [if_neg hv, if_neg (fun hc => Bool.false_ne_true (hinst ▸ hc.2)), if_neg hfam,
      if_neg (fun hc => Bool.false_ne_true (hfh ▸ hc))]
  · intro st line hv hpre hmatch
    obtain ⟨hz, hzf, hr, hfh⟩ := install_line_shape hpre
    have hfam : ¬ (("ZIP".data).isPrefixOf line.data = true
        ∨ ("ZIPFILE".data).isPrefixOf line.data = true
        ∨ ("RAWFILE".data).isPrefixOf line.data = true) := by
      rintro (hc | hc | hc)
      · exact Bool.false_ne_true (hz ▸ hc)
      · exact Bool.false_ne_true (hzf ▸ hc)
      · exact Bool.false_ne_true (hr ▸ hc)
    simp only [processLine]
    rw [if_neg hv]
    by_cases hempty : st.install_path_pfx = ""
    · rw [if_pos ⟨hempty, hpre⟩, hmatch]
    · rw [if_neg (fun hc => hempty hc.1), if_neg hfam,
        if_neg (fun hc => Bool.false_ne_true (hfh ▸ hc))]
  · intro st line hv hpre hmatch
    obtain ⟨hni, hz, hzf, hr⟩ := fileHistory_line_shape hpre
    have hfam : ¬ (("ZIP".data).isPrefixOf line.data = true
        ∨ ("ZIPFILE".data).isPrefixOf line.data = true
        ∨ ("RAWFILE".data).isPrefixOf line.data = true) := by
      rintro (hc | hc | hc)
      · exact Bool.false_ne_true (hz ▸ hc)
      · exact Bool.false_ne_true (hzf ▸ hc)
      · exact Bool.false_ne_true (hr ▸ hc)
    simp only [processLine]
    rw [if_neg hv, if_neg (fun hc => Bool.false_ne_true (hni ▸ hc.2)), if_neg hfam,
      if_pos hpre, hmatch]

/-- C2 witness: the amended theorem applied at a concrete state and line:
`ZIPGARBAGE` starts with `ZIP`, matches no record regex, and is fatal. -/
theorem malformed_error_only_for_zip_family_witness :
    processLine ⟨1, "", [], [], [], none⟩ "ZIPGARBAGE" =
      .error (.malformedManifestLine "ZIPGARBAGE") :=
  malformed_error_only_for_zip_family.1 ⟨1, "", [], [], [], none⟩ "ZIPGARBAGE"
    (by decide) (by decide) (by decide) (by decide) (by decide)

/-- C3 counterexample: a `ZIPFILE` entry followed by a `RAWFILE` entry for
the same path parses successfully into a mixed entry list (one zipped entry
and one loose entry for `f.txt`), contradicting the claim that a
container-less entry cannot coexist with a contained one. -/
theorem mixed_raw_and_zip_entries_cex :
    ComponentManifest.from_file
      (some "MANIFEST_VERSION 1\nZIP 1.0 h1 a.zip a.zip\nZIPFILE 0 0 0 0 t 1.0 h2 f.txt\nRAWFILE 0 0 0 0 t 1.0 h3 f.txt x") =
    .ok (some ⟨1, "", [("f.txt", [⟨"h2", some "a.zip"⟩, ⟨"h3", none⟩])], [],
      [("a.zip", "h1")]⟩) := by decide

/-- C3 amended: in every manifest returned by a successful parse, each path
has at most one container-less (`RAWFILE`) entry, and a well-formed
`RAWFILE` record for a path that already has a container-less entry fails
with `DuplicateRawFile`.  Mixing is nevertheless allowed in both orders: a
well-formed `RAWFILE` record is accepted (appending a loose entry) whenever
every existing entry for its path is contained, and a well-formed `ZIPFILE`
record with a current ZIP is accepted (appending a contained entry)
regardless of any loose entry, being rejected only on a duplicate within
the same ZIP. -/
theorem at_most_one_raw_entry_per_path :
    (∀ (src : String) (m : ComponentManifest),
        ComponentManifest.from_file (some src) = .ok (some m) →
        ∀ p, rawCount (entriesGet m.entries p) ≤ 1)
    ∧ (∀ (st : ParseState) (line : String) (g : RawfileGroups), ¬ st.version = -1 →
        matchRawfile line.data = some g →
        (∃ e ∈ entriesGet st.entries
            (unescape_spaces (pyPathJoin st.install_path_pfx g.g8.asString)),
          e.in_zip = none) →
        processLine st line = .error (.duplicateRawFile
          (unescape_spaces (pyPathJoin st.install_path_pfx g.g8.asString))))
    ∧ (∀ (st : ParseState) (line : String) (g : RawfileGroups), ¬ st.version = -1 →
        matchRawfile line.data = some g →
        (entriesGet st.entries
            (unescape_spaces (pyPathJoin st.install_path_pfx g.g8.asString))).all
          (fun e => e.in_zip.isSome) = true →
        processLine st line = .ok { st with
          entries := entriesAppend st.entries
            (unescape_spaces (pyPathJoin st.install_path_pfx g.g8.asString))
            ⟨g.g7.asString, none⟩ })
    ∧ (∀ (st : ParseState) (line : String) (g : ZipfileGroups) (mrz : String),
        ¬ st.version = -1 →
        matchZipfile line.data = some g → st.most_recent_zip = some mrz →
        (entriesGet st.entries
            (unescape_spaces (pyPathJoin st.install_path_pfx g.g8.asString))).any
          (fun e => e.in_zip == some mrz) = false →
        processLine st line = .ok { st with
          entries := entriesAppend st.entries
            (unescape_spaces (pyPathJoin st.install_path_pfx g.g8.asString))
            ⟨g.g7.asString, some mrz⟩ }) := by
  refine ⟨?_, ?_, ?_, ?_⟩
  · intro src m h
    simp only [ComponentManifest.from_file] at h
    cases hf : (pySplitLines src).foldlM processLine initState with
    | error e =>
      rw [hf] at h
      exact absurd h (by simp [except_bind_error])
    | ok st =>
      rw [hf, except_bind_ok] at h
      have hm : m = ⟨st.version, st.install_path_pfx, st.entries, st.history, st.zips⟩ := by
        cases h
        rfl
      rw [hm]
      exact foldlM_rawCount (pySplitLines src) initState st hf initState_rawCount
  · intro st line g hv hg hex
    obtain ⟨t, ht⟩ := rawfile_line_shape (by rw [hg]; rfl)
    have hR : ("RAWFILE".data).isPrefixOf line.data = true := by
      rw [ht]; simp [List.isPrefixOf]
    obtain ⟨hni, -⟩ := zipFamily_not_install (Or.inr (Or.inr hR))
    have hguard : ¬ ((entriesGet st.entries
        (unescape_spaces (pyPathJoin st.install_path_pfx g.g8.asString))).all
          (fun e => e.in_zip.isSome) = true) := by
      intro hall
      obtain ⟨e, hmem, hnone⟩ := hex
      have hsome := List.all_eq_true.mp hall e hmem
      rw [hnone] at hsome
      exact absurd hsome (by simp)
    simp only [processLine]
    rw [if_neg hv, if_neg (fun hc => Bool.false_ne_true (hni ▸ hc.2)),
      if_pos (Or.inr (Or.inr hR)), hg]
    simp [hguard]
  · intro st line g hv hg hall
    obtain ⟨t, ht⟩ := rawfile_line_shape (by rw [hg]; rfl)
    have hR : ("RAWFILE".data).isPrefixOf line.data = true := by
      rw [ht]; simp [List.isPrefixOf]
    obtain ⟨hni, -⟩ := zipFamily_not_install (Or.inr (Or.inr hR))
    simp only [processLine]
    rw [if_neg hv, if_neg (fun hc => Bool.false_ne_true (hni ▸ hc.2)),
      if_pos (Or.inr (Or.inr hR)), hg]
    simp [hall]
  · intro st line g mrz hv hg hmrz hnodup
    obtain ⟨t, ht⟩ := zipfile_line_shape (by rw [hg]; rfl)
    have hZ : ("ZIP".data).isPrefixOf line.data = true := by
      rw [ht]; simp [List.isPrefixOf]
    obtain ⟨hni, -⟩ := zipFamily_not_install (Or.inl hZ)
    have hraw : matchRawfile line.data = none := by
      rw [ht]; exact matchRawfile_zipfile_shape_none t
    have hzipn : matchZip line.data = none := by
      rw [ht]; exact matchZip_zipfile_shape_none t
    simp only [processLine]
    rw [if_neg hv, if_neg (fun hc => Bool.false_ne_true (hni ▸ hc.2)), if_pos (Or.inl hZ),
      hraw, hzipn, hg, hmrz]
    simp [hnodup]

/-- C3 witness: the invariant conjunct evaluated through a concrete parse
with one loose file. -/
theorem at_most_one_raw_entry_per_path_witness :
    rawCount (entriesGet
      (⟨1, "", [("f", [⟨"h", none⟩])], [], []⟩ : ComponentManifest).entries "f") ≤ 1 :=
  at_most_one_raw_entry_per_path.1 "MANIFEST_VERSION 1\nRAWFILE 0 0 0 0 t 1.0 h f g"
    ⟨1, "", [("f", [⟨"h", none⟩])], [], []⟩ (by decide) "f"

/-- C4: `from_file_with_next_version` returns `(none, 1)` for an absent
source; whenever a manifest is parsed the second component is its version
plus one; and `MANIFEST_VERSION 7` parses to version 7 with next version 8. -/
theorem from_file_with_next_version_spec :
    ComponentManifest.from_file_with_next_version none = .ok (none, 1)
    ∧ (∀ (src : String) (m : ComponentManifest),
        ComponentManifest.from_file (some src) = .ok (some m) →
        ComponentManifest.from_file_with_next_version (some src) =
          .ok (some m, m.version + 1))
    ∧ ComponentManifest.from_file_with_next_version (some "MANIFEST_VERSION 7") =
        .ok (some ⟨7, "", [], [], []⟩, 8) := by
  refine ⟨rfl, ?_, by decide⟩
  intro src m h
  unfold ComponentManifest.from_file_with_next_version
  rw [h, except_bind_ok]
  exact rfl

/-- C4 witness: the middle conjunct applied at a concrete parsed manifest. -/
theorem from_file_with_next_version_spec_witness :
    ComponentManifest.from_file_with_next_version (some "MANIFEST_VERSION 3") =
      .ok (some ⟨3, "", [], [], []⟩,
        (⟨3, "", [], [], []⟩ : ComponentManifest).version + 1) :=
  from_file_with_next_version_spec.2.1 "MANIFEST_VERSION 3" ⟨3, "", [], [], []⟩ (by decide)

/-- C5: when the manifest's lines split as a prefix that parses without
error into a state whose version has been found and that contains no `ZIP`
record, followed by a well-formed `ZIPFILE` line, the whole parse fails
with `MissingZipContext` at that line. -/
theorem zipfile_before_zip_missing_context (text : String)
    (before after : List String) (zfLine : String) (st : ParseState)
    (hsplit : pySplitLines text = before ++ zfLine :: after)
    (hfold : before.foldlM processLine initState = .ok st)
    (hver : ¬ st.version = -1)
    (hnozip : ∀ l ∈ before, matchZip l.data = none)
    (hzf : (matchZipfile zfLine.data).isSome) :
    ComponentManifest.from_file (some text) = .error (.missingZipContext zfLine) := by
  have hmz : st.most_recent_zip = none :=
    foldlM_most_recent_zip_none before initState st hnozip hfold rfl
  have hstep : processLine st zfLine = .error (.missingZipContext zfLine) :=
    processLine_zipfile_no_context st zfLine hver hmz hzf
  simp only [ComponentManifest.from_file]
  rw [hsplit, List.foldlM_append, hfold, except_bind_ok, List.foldlM_cons, hstep,
    except_bind_error, except_bind_error]

/-- C5 witness: a manifest whose only body line is a `ZIPFILE` with no
prior `ZIP` fails with `MissingZipContext`. -/
theorem zipfile_before_zip_missing_context_witness :
    ComponentManifest.from_file (some "MANIFEST_VERSION 1\nZIPFILE 0 0 0 0 t 1.0 h f.txt") =
      .error (.missingZipContext "ZIPFILE 0 0 0 0 t 1.0 h f.txt") :=
  zipfile_before_zip_missing_context "MANIFEST_VERSION 1\nZIPFILE 0 0 0 0 t 1.0 h f.txt"
    ["MANIFEST_VERSION 1"] [] "ZIPFILE 0 0 0 0 t 1.0 h f.txt" ⟨1, "", [], [], [], none⟩
    (by decide) (by decide) (by decide) (by decide) (by decide)

/-- C6: a `ZIP` line records its hash under the prefix-joined ZIP path and
becomes the container of the following `ZIPFILE` line: the resulting entry
for `pre/foo/bar.png` has container `pre/data.zip` and hash `tok` (the
seventh captured field of the `ZIPFILE` regex). -/
theorem zip_then_zipfile_entry_container_hash :
    ComponentManifest.from_file
      (some "MANIFEST_VERSION 1\nINSTALL_PATH_PREFIX pre\nZIP 1.0 abc data.zip data.zip\nZIPFILE 0 0 0 0 tok 2.0 tok foo/bar.png") =
    .ok (some ⟨1, "pre", [("pre/foo/bar.png", [⟨"tok", some "pre/data.zip"⟩])], [],
      [("pre/data.zip", "abc")]⟩) := by decide

/-- C7 counterexample: a document in which the `COMPONENTS` marker appears
twice does not fail - the version on the line after the first marker is
returned before the second marker is ever examined. -/
theorem duplicate_marker_still_returns_cex :
    component_list_version "COMPONENTS\n5\nCOMPONENTS\n6" = some 5 := by decide

/-- C7 amended: `component_list_version` scans for the first line whose
right-stripped text is `COMPONENTS` and returns `int` of the following line
(failing when that line is itself a marker line or not an integer); it
fails when no marker line exists or the marker is the last line.  A second
marker anywhere after the version line is never reached. -/
theorem component_list_version_characterization :
    (∀ text : String, (∀ l ∈ pySplitLines text, ¬ pyRstrip l = "COMPONENTS") →
      component_list_version text = none)
    ∧ (∀ (text : String) (before : List String) (m follow : String) (rest : List String),
        pySplitLines text = before ++ m :: follow :: rest →
        (∀ l ∈ before, ¬ pyRstrip l = "COMPONENTS") →
        pyRstrip m = "COMPONENTS" →
        component_list_version text =
          if pyRstrip follow = "COMPONENTS" then none else pyInt follow)
    ∧ (∀ (text : String) (before : List String) (m : String),
        pySplitLines text = before ++ [m] →
        (∀ l ∈ before, ¬ pyRstrip l = "COMPONENTS") →
        pyRstrip m = "COMPONENTS" →
        component_list_version text = none) := by
  refine ⟨?_, ?_, ?_⟩
  · intro text h
    exact clvl_none_of_no_marker (pySplitLines text) h
  · intro text before m follow rest hsplit hb hm
    unfold component_list_version
    rw [hsplit]
    exact clvl_after_marker before m follow rest hb hm
  · intro text before m hsplit hb hm
    unfold component_list_version
    rw [hsplit]
    exact clvl_marker_last before m hb hm

/-- C7 witness: the characterization applied to a concrete document whose
marker is followed by the integer line `7`. -/
theorem component_list_version_characterization_witness :
    component_list_version "x\nCOMPONENTS\n7\ntail" =
      if pyRstrip "7" = "COMPONENTS" then none else pyInt "7" :=
  component_list_version_characterization.2.1 "x\nCOMPONENTS\n7\ntail"
    ["x"] "COMPONENTS" "7" ["tail"] (by decide) (by decide) (by decide)

set_option maxRecDepth 8192 in
/-- C8: a component-list document with exactly two `COMPONENT` blocks
terminated by `ENDOFLIST` parses to exactly those two blocks in document
order (note the second block's `REQUIRE_AUTH 0` reads back as `true`, the
behavior established for C10). -/
theorem parse_component_list_two_blocks :
    parse_component_list
      "COMPONENTS\n2\nCOMPONENT com.laminarresearch.xplane_10.alpha\nSERVER_SECURE\n/alpha\nMANIFEST_VERSIONS 1 2\nREQUIRE_AUTH 1\nSIM_VERSIONS 10 11\n\nCOMPONENT com.laminarresearch.xplane_10.beta\nSERVER_UNSECURE\n/beta\nMANIFEST_VERSIONS 3 4\nREQUIRE_AUTH 0\nSIM_VERSIONS 12 13\n\nENDOFLIST\n" =
    some [⟨"alpha", .MobileSecure, "/alpha", [1, 2], true, 10, 11⟩,
          ⟨"beta", .MobileUnsecured, "/beta", [3, 4], true, 12, 13⟩] := by decide

/-- C9: a present source none of whose lines matches the
`MANIFEST_VERSION` header pattern parses successfully to the sentinel
manifest (version `-1`, empty maps), and `from_file_with_next_version`
reports next version `0` for it. -/
theorem no_version_header_yields_sentinel (text : String)
    (_hne : ¬ text = "")
    (h : ∀ l ∈ pySplitLines text, matchManifestVersion l.data = none) :
    ComponentManifest.from_file (some text) = .ok (some ⟨-1, "", [], [], []⟩)
    ∧ ComponentManifest.from_file_with_next_version (some text) =
        .ok (some ⟨-1, "", [], [], []⟩, 0) := by
  have hfold : (pySplitLines text).foldlM processLine initState = .ok initState :=
    foldlM_version_skip (pySplitLines text) initState rfl h
  have h1 : ComponentManifest.from_file (some text) = .ok (some ⟨-1, "", [], [], []⟩) := by
    simp only [ComponentManifest.from_file]
    rw [hfold, except_bind_ok]
    exact rfl
  refine ⟨h1, ?_⟩
  unfold ComponentManifest.from_file_with_next_version
  rw [h1, except_bind_ok]
  exact rfl

/-- C9 witness: a two-line source with no version header. -/
theorem no_version_header_yields_sentinel_witness :
    ComponentManifest.from_file (some "hello\nworld") = .ok (some ⟨-1, "", [], [], []⟩)
    ∧ ComponentManifest.from_file_with_next_version (some "hello\nworld") =
        .ok (some ⟨-1, "", [], [], []⟩, 0) :=
  no_version_header_yields_sentinel "hello\nworld" (by decide) (by decide)

/-- C10: whenever `from_str` succeeds, the parsed `require_auth` flag is
true exactly when the text after the `REQUIRE_AUTH` token on the fifth
line strips to something non-empty — `bool(s.strip())` — so the literal
text `0` also yields `true`. -/
theorem require_auth_true_iff_nonblank (t : String) (b : ComponentBlock)
    (hb : ComponentBlock.from_str t = some b) (l4 authRest : String)
    (hl4 : (pySplitLines (pyStrip t)).get? 4 = some l4)
    (hrest : pySplitOnce l4 "REQUIRE_AUTH" = some authRest) :
    b.require_auth = !(pyStrip authRest).isEmpty := by
  simp only [ComponentBlock.from_str] at hb
  repeat' split at hb
  all_goals simp_all
  all_goals (cases hb; rfl)

/-- C10 witness: the theorem applied to a block whose `REQUIRE_AUTH` line
carries the literal `0`; the parsed flag is `true`. -/
theorem require_auth_true_iff_nonblank_witness :
    (⟨"beta", .MobileUnsecured, "/beta", [3, 4], true, 12, 13⟩ :
        ComponentBlock).require_auth = !(pyStrip " 0").isEmpty :=
  require_auth_true_iff_nonblank
    "COMPONENT com.laminarresearch.xplane_10.beta\nSERVER_UNSECURE\n/beta\nMANIFEST_VERSIONS 3 4\nREQUIRE_AUTH 0\nSIM_VERSIONS 12 13\n\n"
    ⟨"beta", .MobileUnsecured, "/beta", [3, 4], true, 12, 13⟩ (by decide)
    "REQUIRE_AUTH 0" " 0" (by decide) (by decide)
